import Mathlib

/-!
Shallow embedding of the btc async toolbox (RPC batch dispatcher,
transport session lifecycle, and ZMQ event subscriber), with theorems
checking the specification's claims against the code.

Sources embedded:
 - src/btc/utils.py        : split_into_chunks, flatten
 - src/btc/rpc_wrapper.py  : process_rpc_response, process_rpc_response_batch,
                             RPCHandler.__init__/__del__/_init_session,
                             _execute_rpc_single, _execute_rpc_batch
 - src/btc/zmq_wrapper.py  : ZMQHandler.__init__, ZMQHandler.handle

The network transport is modelled as an explicit function argument: a
single-request transport maps one request to an `Except` (an `Except.error`
models a raised exception inside the `try` block), and a batch transport
maps one chunk (one HTTP POST of a JSON array) to an `Except` over the
list of response envelopes of that chunk.
-/

namespace Btc

/-- From src/btc/utils.py:
`chunk_size = max(chunk_size, 1)`;
`return (lst[i: i + chunk_size] for i in range(0, len(lst), chunk_size))`.
`range(0, len, cs)` enumerates `0, cs, 2*cs, ...`, that is
`(len + cs - 1) / cs` indices, and `lst[i : i + cs]` is `(lst.drop i).take cs`. -/
def split_into_chunks (lst : List α) (chunk_size : Nat) : List (List α) :=
  let cs := max chunk_size 1
  (List.range' 0 ((lst.length + cs - 1) / cs) cs).map fun i => (lst.drop i).take cs

/-- From src/btc/utils.py: `flatten(lst) = reduce(operator.concat, lst)`.
Python's `reduce` with no initializer raises `TypeError` on the empty list,
modelled by `none`; on `x :: xs` it left-folds concatenation starting at `x`. -/
def flatten (lst : List (List α)) : Option (List α) :=
  match lst with
  | [] => none
  | x :: xs => some (xs.foldl (· ++ ·) x)

/-- From src/btc/rpc_wrapper.py: `CHUNK_SIZE = 100`. -/
def CHUNK_SIZE : Nat := 100

/-- A JSON-RPC response envelope: the `result` and `error` members of one
response dict (`error` is a JSON value that may be null, kept opaque). -/
structure Envelope (V : Type) where
  result : V
  error : V
deriving Repr, DecidableEq

/-- The two shapes `process_rpc_response*` can produce for one call,
depending on `return_error`: `result` only, or the `(result, error)` pair. -/
inductive Processed (V : Type) where
  | res (r : V)
  | resErr (r : V) (e : V)
deriving Repr, DecidableEq

/-- From src/btc/rpc_wrapper.py `process_rpc_response`:
`if not response: return None`; then `response['result'], response['error']`
when `return_error` else `response['result']`. -/
def process_rpc_response (response : Option (Envelope V)) (return_error : Bool) :
    Option (Processed V) :=
  match response with
  | none => none
  | some r => if return_error then some (.resErr r.result r.error) else some (.res r.result)

/-- From src/btc/rpc_wrapper.py `process_rpc_response_batch`:
`if not response: return []`; then the per-envelope mapping. -/
def process_rpc_response_batch (response : Option (List (Envelope V)))
    (return_error : Bool) : List (Processed V) :=
  match response with
  | none => []
  | some rs =>
    if return_error then rs.map (fun r => .resErr r.result r.error)
    else rs.map (fun r => .res r.result)

/-- The aiohttp `ClientSession` as far as the code observes it:
the timeout it was created with, and its `closed` flag. -/
structure SessionCtx where
  timeout : Nat
  closed : Bool
deriving Repr, DecidableEq

/-- The `RPCHandler` state the claims touch: `self.session` (initialized to
`None` in `__init__`) plus an instrumentation counter of how many
`ClientSession` objects have been constructed for this handler. -/
structure RPCState where
  session : Option SessionCtx
  createdCount : Nat
deriving Repr, DecidableEq

/-- From `RPCHandler.__init__`: `self.session = None` (and
`self.timeout = aiohttp.ClientTimeout(total=1200)`, used at creation time). -/
def freshRPCState : RPCState :=
  { session := none, createdCount := 0 }

/-- From `RPCHandler._init_session`: `if not self.session:` create
`aiohttp.ClientSession(loop=self.loop, timeout=self.timeout)` with the
1200-second total timeout from `__init__`; otherwise do nothing. -/
def init_session (st : RPCState) : RPCState :=
  match st.session with
  | some _ => st
  | none =>
    { session := some { timeout := 1200, closed := false }
      createdCount := st.createdCount + 1 }

/-- Outcome of `RPCHandler.__del__`. -/
inductive DelOutcome where
  | raisedAttributeError
  | scheduledClose
  | noop
deriving Repr, DecidableEq

/-- From `RPCHandler.__del__`: `if not self.session.closed: create_task(close)`.
When `self.session` is still `None` (never used), the attribute access
`None.closed` raises `AttributeError`. -/
def rpc_handler_del (st : RPCState) : DelOutcome :=
  match st.session with
  | none => .raisedAttributeError
  | some s => if s.closed then .noop else .scheduledClose

/-- The sequential chunk loop of `_execute_rpc_batch`:
`for rpc in rpc_batch_chunks: res.append(await rpc.execute(url, session))`,
inside one `try`. Returns the trace of chunks actually dispatched to the
transport, in dispatch order (each dispatch completes before the next one
starts), and either the collected per-chunk responses or the first raised
exception, which aborts the loop. -/
def execChunksSeq (transport : List σ → Except Unit (List ρ)) :
    List (List σ) → List (List σ) × Except Unit (List (List ρ))
  | [] => ([], .ok [])
  | c :: cs =>
    match transport c with
    | .error e => ([c], .error e)
    | .ok r =>
      match execChunksSeq transport cs with
      | (tr, .error e) => (c :: tr, .error e)
      | (tr, .ok rs) => (c :: tr, .ok (r :: rs))

/-- Embedding of `RPCHandler._execute_rpc_batch(method_list)`, transport explicit.
Returns the session state after the call, the trace of chunks posted to the
transport (empty means no network call), and the returned value
(`none` models the Python `return None` on a caught exception).
The code: `if not method_list: return []`; `await self._init_session()`;
chunk with `split_into_chunks(method_list, CHUNK_SIZE)` (each chunk becoming
one `RPCBatch` whose envelopes keep the chunk's order); dispatch the chunks
sequentially; on success `return flatten(res) if res else []`;
on any exception `return None`. -/
def execute_rpc_batch (transport : List σ → Except Unit (List ρ))
    (st : RPCState) (method_list : List σ) :
    RPCState × List (List σ) × Option (List ρ) :=
  if method_list.isEmpty then (st, [], some []) else
  let st' := init_session st
  let chunks := split_into_chunks method_list CHUNK_SIZE
  match execChunksSeq transport chunks with
  | (tr, .error _) => (st', tr, none)
  | (tr, .ok res) =>
    if res.isEmpty then (st', tr, some [])
    else
      match flatten res with
      | some l => (st', tr, some l)
      | none => (st', tr, none)

/-- Embedding of `RPCHandler._execute_rpc_single(method, params)`, with the transport
explicit: init the session, execute one request, return the parsed envelope,
or `None` when the `try` block raised. -/
def execute_rpc_single (transport : σ → Except Unit (Envelope V))
    (st : RPCState) (req : σ) : RPCState × Option (Envelope V) :=
  let st' := init_session st
  match transport req with
  | .ok r => (st', some r)
  | .error _ => (st', none)

/-- A facade batch method (the common shape of `get_block_batch`,
`get_block_hash_batch`, ...): `resp = await self._execute_rpc_batch(...)`;
`return process_rpc_response_batch(resp, return_error)`. -/
def facade_batch (transport : List σ → Except Unit (List (Envelope V)))
    (st : RPCState) (method_list : List σ) (return_error : Bool) :
    RPCState × List (Processed V) :=
  match execute_rpc_batch transport st method_list with
  | (st', _, resp) => (st', process_rpc_response_batch resp return_error)

/-- A facade single-call method (the common shape of `get_block`,
`get_balance`, ...): `resp = await self._execute_rpc_single(...)`;
`return process_rpc_response(resp, return_error)`. -/
def facade_single (transport : σ → Except Unit (Envelope V))
    (st : RPCState) (req : σ) (return_error : Bool) :
    RPCState × Option (Processed V) :=
  match execute_rpc_single transport st req with
  | (st', resp) => (st', process_rpc_response resp return_error)

/-! The ZMQ event subscriber (src/btc/zmq_wrapper.py). -/

/-- A message body frame: opaque bytes. -/
abbrev Body := List (Fin 256)

/-- A topic handler, `Callable[[bytes], Awaitable[Any]]`: the awaited call
either completes or raises (`Except.error`). -/
abbrev Handler := Body → Except Unit Unit

/-- The handler attributes of a constructed `ZMQHandler`, plus the list of
`zmq.SUBSCRIBE` topic filters applied to the socket, in the order the
constructor applies them. `__init__` assigns `self.hashtx_handler`,
`self.rawblock_handler`, `self.rawtx_handler` and `self.sequence_handler`
unconditionally, but `self.hashblock_handler` only inside
`if hashblock_handler:` — so that attribute may not exist at all, modelled
by the outer `Option` (`none` = attribute absent, access raises
`AttributeError`). -/
structure ZMQSub where
  hashblock_attr : Option (Option Handler)
  hashtx_attr : Option Handler
  rawblock_attr : Option Handler
  rawtx_attr : Option Handler
  sequence_attr : Option Handler
  filters : List String

/-- Embedding of `ZMQHandler.__init__(host, port, hashblock_handler, hashtx_handler,
rawblock_handler, rawtx_handler, sequence_handler)`: records handlers and,
for each truthy (i.e. supplied) handler, applies one
`setsockopt_string(zmq.SUBSCRIBE, topic)` filter, in source order
hashtx, rawblock, rawtx, sequence, hashblock. -/
def zmq_handler_init (hashblock_handler hashtx_handler rawblock_handler
    rawtx_handler sequence_handler : Option Handler) : ZMQSub :=
  { hashblock_attr :=
      match hashblock_handler with
      | some h => some (some h)
      | none => none
    hashtx_attr := hashtx_handler
    rawblock_attr := rawblock_handler
    rawtx_attr := rawtx_handler
    sequence_attr := sequence_handler
    filters :=
      (if hashtx_handler.isSome then ["hashtx"] else [])
      ++ (if rawblock_handler.isSome then ["rawblock"] else [])
      ++ (if rawtx_handler.isSome then ["rawtx"] else [])
      ++ (if sequence_handler.isSome then ["sequence"] else [])
      ++ (if hashblock_handler.isSome then ["hashblock"] else []) }

/-- The five topic names the receive loop recognizes. -/
def recognizedTopics : List String :=
  ["hashblock", "hashtx", "rawblock", "rawtx", "sequence"]

/-- The value of a 4-byte little-endian unsigned integer,
`struct.unpack('<I', seq)[-1]`. -/
def leUInt32 (b0 b1 b2 b3 : Fin 256) : Nat :=
  b0.val + 256 * b1.val + 65536 * b2.val + 16777216 * b3.val

/-- The sequence decoding of `ZMQHandler.handle`:
`sequence = "Unknown"`, then `if len(seq) == 4:
sequence = str(struct.unpack('<I', seq)[-1])`. Total: any frame whose
length is not 4 (including the empty frame) keeps the `"Unknown"` marker. -/
def decodeSequence (seq : List (Fin 256)) : String :=
  match seq with
  | [b0, b1, b2, b3] => toString (leUInt32 b0 b1 b2 b3)
  | _ => "Unknown"

/-- How the dispatch part of one `handle` cycle can raise. -/
inductive HandleError where
  | attributeError
  | typeError
  | handlerError
deriving Repr, DecidableEq

/-- The topic dispatch of `ZMQHandler.handle`: the `if/elif` chain on
`topic`. Accessing the missing `hashblock_handler` attribute raises
`AttributeError`; calling a `None` handler raises `TypeError`; an awaited
handler may itself raise. Returns whether a handler was actually entered,
and the exception, if any, escaping the dispatch. An unrecognized topic
matches no branch: nothing is invoked and nothing is raised. -/
def dispatchTopic (st : ZMQSub) (topic : String) (body : Body) :
    Bool × Option HandleError :=
  if topic = "hashblock" then
    match st.hashblock_attr with
    | none => (false, some .attributeError)
    | some none => (false, some .typeError)
    | some (some h) =>
      (true, match h body with | .ok _ => none | .error _ => some .handlerError)
  else if topic = "hashtx" then
    match st.hashtx_attr with
    | none => (false, some .typeError)
    | some h =>
      (true, match h body with | .ok _ => none | .error _ => some .handlerError)
  else if topic = "rawblock" then
    match st.rawblock_attr with
    | none => (false, some .typeError)
    | some h =>
      (true, match h body with | .ok _ => none | .error _ => some .handlerError)
  else if topic = "rawtx" then
    match st.rawtx_attr with
    | none => (false, some .typeError)
    | some h =>
      (true, match h body with | .ok _ => none | .error _ => some .handlerError)
  else if topic = "sequence" then
    match st.sequence_attr with
    | none => (false, some .typeError)
    | some h =>
      (true, match h body with | .ok _ => none | .error _ => some .handlerError)
  else (false, none)

/-- Observable outcome of one `ZMQHandler.handle` cycle on one received
3-frame message. `rearmed` records whether the final
`self.loop.create_task(self.handle())` line ran (it is skipped whenever an
exception escapes the dispatch, since the method has no try/except). -/
structure HandleResult where
  sequenceStr : String
  invokedHandler : Bool
  error : Option HandleError
  rearmed : Bool
deriving Repr, DecidableEq

/-- One cycle of `ZMQHandler.handle` after
`topic, body, seq = await recv_multipart()`: decode the sequence frame,
dispatch the body by topic, and re-arm by scheduling the next receive —
the re-arm line only runs when no exception escaped the dispatch. -/
def handle (st : ZMQSub) (topic : String) (body : Body)
    (seq : List (Fin 256)) : HandleResult :=
  let sequenceStr := decodeSequence seq
  match dispatchTopic st topic body with
  | (inv, err) =>
    { sequenceStr := sequenceStr
      invokedHandler := inv
      error := err
      rearmed := err.isNone }

/-! Helper lemmas. -/

theorem range'_shift (s n step : Nat) :
    List.range' (s + step) n step = (List.range' s n step).map (· + step) := by
  induction n generalizing s with
  | zero => simp
  | succ n ih =>
    rw [List.range'_succ, List.range'_succ, List.map_cons, ← ih]

theorem split_into_chunks_nil (n : Nat) : split_into_chunks ([] : List α) n = [] := by
  have h : (0 + max n 1 - 1) / max n 1 = 0 := Nat.div_eq_of_lt (by omega)
  simp only [split_into_chunks, List.length_nil]
  rw [h]
  simp

theorem split_into_chunks_cons (l : List α) (n : Nat) (h : l ≠ []) :
    split_into_chunks l n
      = l.take (max n 1) :: split_into_chunks (l.drop (max n 1)) n := by
  have hcs : 0 < max n 1 := by omega
  have hlen : 0 < l.length := List.length_pos.mpr h
  have hcount : (l.length + max n 1 - 1) / max n 1
      = ((l.drop (max n 1)).length + max n 1 - 1) / max n 1 + 1 := by
    rw [List.length_drop]
    rcases le_or_lt l.length (max n 1) with hle | hlt
    · have h1 : l.length - max n 1 = 0 := by omega
      have h2 : l.length + max n 1 - 1 = (l.length - 1) + max n 1 := by omega
      rw [h1, h2, Nat.add_div_right _ hcs,
        Nat.div_eq_of_lt (by omega), Nat.div_eq_of_lt (by omega)]
    · have h1 : l.length - max n 1 + max n 1 - 1
          = (l.length - max n 1 - 1) + max n 1 := by omega
      have h2 : l.length + max n 1 - 1 = (l.length - 1) + max n 1 := by omega
      have h3 : l.length - 1 = (l.length - max n 1 - 1) + max n 1 := by omega
      rw [h1, h2, h3, Nat.add_div_right _ hcs, Nat.add_div_right _ hcs]
  simp only [split_into_chunks]
  rw [hcount, List.range'_succ, List.map_cons, List.drop_zero, Nat.zero_add]
  congr 1
  have hshift := range'_shift 0
    (((l.drop (max n 1)).length + max n 1 - 1) / max n 1) (max n 1)
  rw [Nat.zero_add] at hshift
  rw [hshift, List.map_map]
  congr 1
  funext i
  simp only [Function.comp]
  rw [List.drop_drop, Nat.add_comm]

theorem split_into_chunks_flatten (n : Nat) (l : List α) :
    (split_into_chunks l n).flatten = l := by
  suffices hg : ∀ (k : Nat) (l : List α), l.length = k →
      (split_into_chunks l n).flatten = l from hg l.length l rfl
  intro k
  induction k using Nat.strong_induction_on with
  | _ k ih =>
    intro l hk
    match l with
    | [] => simp [split_into_chunks_nil]
    | a :: t =>
      rw [split_into_chunks_cons _ _ (by simp), List.flatten_cons]
      have hlt : ((a :: t).drop (max n 1)).length < k := by
        simp only [List.length_drop, List.length_cons]
        simp only [List.length_cons] at hk
        omega
      rw [ih _ hlt _ rfl, List.take_append_drop]

theorem split_into_chunks_length_le (n : Nat) (l : List α) :
    ∀ c ∈ split_into_chunks l n, c.length ≤ max n 1 := by
  suffices hg : ∀ (k : Nat) (l : List α), l.length = k →
      ∀ c ∈ split_into_chunks l n, c.length ≤ max n 1 from hg l.length l rfl
  intro k
  induction k using Nat.strong_induction_on with
  | _ k ih =>
    intro l hk
    match l with
    | [] => simp [split_into_chunks_nil]
    | a :: t =>
      rw [split_into_chunks_cons _ _ (by simp)]
      intro c hc
      rcases List.mem_cons.mp hc with hh | hh
      · subst hh
        rw [List.length_take]
        exact Nat.min_le_left _ _
      · have hlt : ((a :: t).drop (max n 1)).length < k := by
          simp only [List.length_drop, List.length_cons]
          simp only [List.length_cons] at hk
          omega
        exact ih _ hlt _ rfl c hh

theorem flatten_cons (x : List α) (xs : List (List α)) :
    flatten (x :: xs) = some ((x :: xs).flatten) := by
  suffices hf : ∀ (ys : List (List α)) (z : List α),
      ys.foldl (· ++ ·) z = z ++ ys.flatten by
    simp [flatten, hf]
  intro ys
  induction ys with
  | nil => simp
  | cons y ys ih =>
    intro z
    simp [List.foldl_cons, ih, List.append_assoc]

theorem execChunksSeq_map (transport : List σ → Except Unit (List ρ)) (f : σ → ρ)
    (hT : ∀ c, transport c = .ok (c.map f)) (cs : List (List σ)) :
    execChunksSeq transport cs = (cs, .ok (cs.map (List.map f))) := by
  induction cs with
  | nil => rfl
  | cons c cs ih => simp [execChunksSeq, hT c, ih]

theorem execChunksSeq_error (transport : List σ → Except Unit (List ρ))
    (cs : List (List σ)) (h : ∃ c ∈ cs, transport c = .error ()) :
    ∃ tr, execChunksSeq transport cs = (tr, .error ()) := by
  induction cs with
  | nil => simp at h
  | cons c cs ih =>
    by_cases hc : transport c = .error ()
    · exact ⟨[c], by simp [execChunksSeq, hc]⟩
    · rcases h with ⟨d, hd, hde⟩
      rcases List.mem_cons.mp hd with hdc | hdm
      · subst hdc; exact absurd hde hc
      · rcases ih ⟨d, hdm, hde⟩ with ⟨tr, htr⟩
        match he : transport c with
        | .error e => cases e; exact absurd he hc
        | .ok r => exact ⟨c :: tr, by simp [execChunksSeq, he, htr]⟩

theorem execChunksSeq_trace_all (transport : List σ → Except Unit (List ρ))
    (cs : List (List σ)) (h : ∀ c ∈ cs, ∃ r, transport c = .ok r) :
    (execChunksSeq transport cs).1 = cs := by
  induction cs with
  | nil => rfl
  | cons c cs ih =>
    rcases h c (List.mem_cons_self c cs) with ⟨r, hr⟩
    have ih' := ih (fun d hd => h d (List.mem_cons_of_mem c hd))
    rcases hrec : execChunksSeq transport cs with ⟨tr, res⟩
    have htr : tr = cs := by rw [hrec] at ih'; exact ih'
    subst htr
    cases res with
    | error e => simp [execChunksSeq, hr, hrec]
    | ok rs => simp [execChunksSeq, hr, hrec]

theorem execute_rpc_batch_trace (transport : List σ → Except Unit (List ρ))
    (st : RPCState) (ml : List σ) (h : ml ≠ []) :
    (execute_rpc_batch transport st ml).2.1
      = (execChunksSeq transport (split_into_chunks ml CHUNK_SIZE)).1 := by
  simp only [execute_rpc_batch]
  rw [if_neg (by simpa using h)]
  rcases hrec : execChunksSeq transport (split_into_chunks ml CHUNK_SIZE) with ⟨tr, res⟩
  cases res with
  | error e => rfl
  | ok rs =>
    by_cases hrs : rs.isEmpty
    · simp [hrs]
    · cases hfl : flatten rs <;> simp [hrs, hfl]

/-! Claim theorems. -/

/-- C1: for every input list of N (method, params) pairs, when the transport
answers each chunk with one response envelope per request in the chunk's
request order (modelled by a per-request response function `f`),
`_execute_rpc_batch` returns exactly the N envelopes of the inputs in the
original input order; and on the empty input it returns the empty list at
once, leaving the session untouched and dispatching nothing. -/
theorem c1_batch_preserves_length_and_order
    (transport : List σ → Except Unit (List ρ)) (f : σ → ρ)
    (hT : ∀ c, transport c = .ok (c.map f))
    (st : RPCState) (ml : List σ) :
    (execute_rpc_batch transport st ml).2.2 = some (ml.map f)
      ∧ execute_rpc_batch transport st ([] : List σ) = (st, [], some []) := by
  refine ⟨?_, rfl⟩
  cases ml with
  | nil => rfl
  | cons a t =>
    have hflat := split_into_chunks_flatten CHUNK_SIZE (a :: t)
    rcases hchunks : split_into_chunks (a :: t) CHUNK_SIZE with _ | ⟨c, cs⟩
    · rw [hchunks] at hflat
      simp at hflat
    · rw [hchunks] at hflat
      have hch := execChunksSeq_map transport f hT (c :: cs)
      simp only [execute_rpc_batch]
      rw [if_neg (by simp), hchunks, hch]
      simp only [List.map_cons, List.isEmpty_cons, Bool.false_eq_true, if_false]
      rw [flatten_cons, ← List.map_cons, ← List.map_flatten, hflat]
      rfl

theorem c1_witness :
    (execute_rpc_batch (fun c => Except.ok (c.map (fun x => x + 1)))
      freshRPCState [10, 20, 30]).2.2 = some [11, 21, 31] := by
  have h := c1_batch_preserves_length_and_order
    (fun c => Except.ok (c.map (fun x : Nat => x + 1))) (fun x : Nat => x + 1)
    (fun _ => rfl) freshRPCState [10, 20, 30]
  simpa using h.1

/-- C2: when the transport raises on some chunk of the batch, the whole
batch returns the absent sentinel (`None`, modelled `none`) with no partial
results; normalization maps an absent raw response to `[]` for batch calls
and to `none` for single calls; and the facade paths return those values
instead of propagating the exception. -/
theorem c2_chunk_failure_no_partial
    (transport : List σ → Except Unit (List (Envelope V)))
    (st : RPCState) (ml : List σ) (re : Bool)
    (h : ∃ c ∈ split_into_chunks ml CHUNK_SIZE, transport c = .error ()) :
    (execute_rpc_batch transport st ml).2.2 = none
      ∧ (facade_batch transport st ml re).2 = []
      ∧ process_rpc_response_batch (none : Option (List (Envelope V))) re = []
      ∧ process_rpc_response (none : Option (Envelope V)) re = none
      ∧ ∀ (tr1 : σ → Except Unit (Envelope V)) (req : σ), tr1 req = .error () →
          (facade_single tr1 st req re).2 = none := by
  have hml : ml ≠ [] := by
    rintro rfl
    rw [split_into_chunks_nil] at h
    simp at h
  obtain ⟨tr, htr⟩ := execChunksSeq_error transport _ h
  have hbatch : (execute_rpc_batch transport st ml).2.2 = none := by
    simp only [execute_rpc_batch]
    rw [if_neg (by simpa using hml), htr]
  refine ⟨hbatch, ?_, rfl, rfl, ?_⟩
  · unfold facade_batch
    rcases heq : execute_rpc_batch transport st ml with ⟨st', tr2, resp⟩
    rw [heq] at hbatch
    simp only at hbatch
    rw [hbatch]
    rfl
  · intro tr1 req hreq
    simp [facade_single, execute_rpc_single, hreq, process_rpc_response]

theorem c2_witness :
    (execute_rpc_batch
        (fun _ => (Except.error () : Except Unit (List (Envelope Nat))))
        freshRPCState [0]).2.2 = none
      ∧ (facade_batch
        (fun _ => (Except.error () : Except Unit (List (Envelope Nat))))
        freshRPCState [0] true).2 = [] := by
  have h := c2_chunk_failure_no_partial
    (fun _ => (Except.error () : Except Unit (List (Envelope Nat))))
    freshRPCState [0] true ⟨[0], by decide, rfl⟩
  exact ⟨h.1, h.2.1⟩

set_option maxRecDepth 10000 in
/-- C3: `_execute_rpc_batch` splits its input into contiguous chunks of at
most 100 requests preserving order (the chunks concatenate back to the
input), and dispatches those chunks to the transport one after another, the
dispatch trace being exactly the chunk list in order (sequential, never
concurrent by construction of the loop); an input of 250 requests yields
exactly 3 chunks of sizes 100, 100 and 50. -/
theorem c3_chunking (transport : List σ → Except Unit (List ρ))
    (st : RPCState) (ml : List σ) (hT : ∀ c, ∃ r, transport c = .ok r) :
    (∀ c ∈ split_into_chunks ml CHUNK_SIZE, c.length ≤ CHUNK_SIZE)
      ∧ (split_into_chunks ml CHUNK_SIZE).flatten = ml
      ∧ (execute_rpc_batch transport st ml).2.1 = split_into_chunks ml CHUNK_SIZE
      ∧ (split_into_chunks (List.range 250) CHUNK_SIZE).map List.length
          = [100, 100, 50] := by
  refine ⟨?_, split_into_chunks_flatten CHUNK_SIZE ml, ?_, by rfl⟩
  · intro c hc
    have := split_into_chunks_length_le CHUNK_SIZE ml c hc
    simpa [CHUNK_SIZE] using this
  · cases ml with
    | nil => rw [split_into_chunks_nil]; rfl
    | cons a t =>
      rw [execute_rpc_batch_trace transport st (a :: t) (by simp)]
      exact execChunksSeq_trace_all transport _ (fun c _ => hT c)

theorem c3_witness :
    (split_into_chunks (List.range 250) CHUNK_SIZE).map List.length
        = [100, 100, 50]
      ∧ (execute_rpc_batch (fun c => Except.ok c) freshRPCState
          [1, 2, 3]).2.1 = split_into_chunks [1, 2, 3] CHUNK_SIZE := by
  have h := c3_chunking (fun c => (Except.ok c : Except Unit (List Nat)))
    freshRPCState [1, 2, 3] (fun c => ⟨c, rfl⟩)
  exact ⟨h.2.2.2, h.2.2.1⟩

/-- C5: the spec says teardown before the session was ever used is a
no-op-safe path that must not fail; the code's `__del__` evaluates
`self.session.closed` while `self.session` is still `None` and therefore
raises `AttributeError` on exactly that path. -/
theorem c5_del_before_any_use_raises :
    rpc_handler_del freshRPCState = DelOutcome.raisedAttributeError := rfl

/-- C9: session initialization is lazy and idempotent: iterating
`_init_session` any number `n ≥ 1` of times from the freshly constructed
handler creates exactly one connection context, carrying the 1200-second
(20-minute) total timeout fixed in `__init__`, and any call finding an
existing session leaves the state unchanged. -/
theorem c9_init_session_lazy_idempotent (n : Nat) (hn : 1 ≤ n)
    (st : RPCState) (c : SessionCtx) (hst : st.session = some c) :
    (init_session^[n] freshRPCState).session
        = some { timeout := 1200, closed := false }
      ∧ (init_session^[n] freshRPCState).createdCount = 1
      ∧ init_session st = st := by
  have hfix : ∀ (st' : RPCState) (c' : SessionCtx),
      st'.session = some c' → init_session st' = st' := by
    intro st' c' hc
    unfold init_session
    rw [hc]
  have hiter : ∀ m, init_session^[m + 1] freshRPCState
      = { session := some { timeout := 1200, closed := false }
          createdCount := 1 } := by
    intro m
    induction m with
    | zero => rfl
    | succ m ih =>
      rw [Function.iterate_succ_apply', ih]
      exact hfix _ { timeout := 1200, closed := false } rfl
  obtain ⟨m, rfl⟩ : ∃ m, n = m + 1 := ⟨n - 1, by omega⟩
  rw [hiter m]
  exact ⟨rfl, rfl, hfix st c hst⟩

theorem c9_witness :
    (init_session^[2] freshRPCState).createdCount = 1
      ∧ (init_session^[2] freshRPCState).session
          = some { timeout := 1200, closed := false } := by
  have h := c9_init_session_lazy_idempotent 2 (by decide)
    (init_session freshRPCState) { timeout := 1200, closed := false } rfl
  exact ⟨h.2.1, h.1⟩

/-- The constructor argument supplied for a recognized topic name. -/
def suppliedHandler (hb ht rb rt sq : Option Handler) : String → Option Handler
  | "hashblock" => hb
  | "hashtx" => ht
  | "rawblock" => rb
  | "rawtx" => rt
  | "sequence" => sq
  | _ => none

/-- C4: the spec says that after dispatch — including when the handler
raises — the loop schedules the next receive; in the code the awaited
handler call has no surrounding try/except, so an exception skips the final
`self.loop.create_task(self.handle())` and the loop is not re-armed, while
the same message with a succeeding handler does re-arm it. -/
theorem c4_handler_exception_skips_rearm :
    (handle (zmq_handler_init (some fun _ => Except.error ()) none none none none)
        "hashblock" [] []).rearmed = false
      ∧ (handle (zmq_handler_init (some fun _ => Except.ok ()) none none none none)
        "hashblock" [] []).rearmed = true :=
  ⟨rfl, rfl⟩

/-- C6: a message on one of the five recognized topics for which no handler
was supplied at construction makes the dispatch raise (an `AttributeError`
for hashblock, whose attribute is never assigned, a `TypeError` for the
other four, whose `None` attribute is called) — never a silent drop, and no
handler runs. -/
theorem c6_missing_handler_raises (hb ht rb rt sq : Option Handler)
    (topic : String) (body : Body) (seq : List (Fin 256))
    (htop : topic ∈ recognizedTopics)
    (hnone : suppliedHandler hb ht rb rt sq topic = none) :
    (handle (zmq_handler_init hb ht rb rt sq) topic body seq).error.isSome = true
      ∧ (handle (zmq_handler_init hb ht rb rt sq) topic body seq).invokedHandler
          = false := by
  fin_cases htop <;>
    simp only [suppliedHandler] at hnone <;>
    subst hnone <;>
    simp [handle, dispatchTopic, zmq_handler_init]

theorem c6_witness :
    (handle (zmq_handler_init none none none none none)
        "hashblock" [] []).error.isSome = true := by
  have h := c6_missing_handler_raises none none none none none
    "hashblock" [] [] (by simp [recognizedTopics]) rfl
  exact h.1

/-- C7: the sequence frame decodes as a 4-byte little-endian unsigned
integer exactly when its length is 4 (so `0x01 0x00 0x00 0x00` decodes to
1), any other length (including the empty frame) yields the `"Unknown"`
marker, and the decoding never fails the message: the dispatch outcome and
the re-arm of `handle` are the same whatever the sequence frame is. -/
theorem c7_sequence_decoding (seq : List (Fin 256)) :
    (∀ b0 b1 b2 b3 : Fin 256, seq = [b0, b1, b2, b3] →
        decodeSequence seq = toString (leUInt32 b0 b1 b2 b3))
      ∧ (seq.length ≠ 4 → decodeSequence seq = "Unknown")
      ∧ decodeSequence [1, 0, 0, 0] = "1"
      ∧ decodeSequence [] = "Unknown"
      ∧ ∀ (st : ZMQSub) (topic : String) (body : Body),
          (handle st topic body seq).error = (handle st topic body []).error
            ∧ (handle st topic body seq).rearmed
                = (handle st topic body []).rearmed
            ∧ (handle st topic body seq).sequenceStr = decodeSequence seq := by
  refine ⟨?_, ?_, rfl, rfl, ?_⟩
  · rintro b0 b1 b2 b3 rfl
    rfl
  · intro hlen
    match seq, hlen with
    | [], _ => rfl
    | [_], _ => rfl
    | [_, _], _ => rfl
    | [_, _, _], _ => rfl
    | [_, _, _, _], hlen => exact absurd rfl hlen
    | _ :: _ :: _ :: _ :: _ :: _, _ => rfl
  · intro st topic body
    rcases hd : dispatchTopic st topic body with ⟨inv, err⟩
    simp [handle, hd]

theorem c7_witness :
    decodeSequence [2, 0, 0, 0] = "2" ∧ decodeSequence [1, 2] = "Unknown" := by
  have h1 := c7_sequence_decoding [2, 0, 0, 0]
  have h2 := c7_sequence_decoding [1, 2]
  refine ⟨?_, h2.2.1 (by decide)⟩
  rw [h1.1 2 0 0 0 rfl]
  rfl

/-- C8: at construction, for each of the five recognized topics, a
`zmq.SUBSCRIBE` topic filter is applied iff a handler was supplied for the
topic, every supplied handler is recorded on the instance, and constructing
with handlers only for rawblock and rawtx applies exactly the two filters
`rawblock` and `rawtx`. -/
theorem c8_filters_iff_handler (hb ht rb rt sq : Option Handler)
    (h1 h2 : Handler) :
    (("hashblock" ∈ (zmq_handler_init hb ht rb rt sq).filters ↔ hb.isSome = true)
      ∧ ("hashtx" ∈ (zmq_handler_init hb ht rb rt sq).filters ↔ ht.isSome = true)
      ∧ ("rawblock" ∈ (zmq_handler_init hb ht rb rt sq).filters ↔ rb.isSome = true)
      ∧ ("rawtx" ∈ (zmq_handler_init hb ht rb rt sq).filters ↔ rt.isSome = true)
      ∧ ("sequence" ∈ (zmq_handler_init hb ht rb rt sq).filters ↔ sq.isSome = true))
      ∧ ((∀ h, hb = some h → (zmq_handler_init hb ht rb rt sq).hashblock_attr = some (some h))
        ∧ (∀ h, ht = some h → (zmq_handler_init hb ht rb rt sq).hashtx_attr = some h)
        ∧ (∀ h, rb = some h → (zmq_handler_init hb ht rb rt sq).rawblock_attr = some h)
        ∧ (∀ h, rt = some h → (zmq_handler_init hb ht rb rt sq).rawtx_attr = some h)
        ∧ (∀ h, sq = some h → (zmq_handler_init hb ht rb rt sq).sequence_attr = some h))
      ∧ (zmq_handler_init none none (some h1) (some h2) none).filters
          = ["rawblock", "rawtx"] := by
  refine ⟨⟨?_, ?_, ?_, ?_, ?_⟩, ⟨?_, ?_, ?_, ?_, ?_⟩, rfl⟩ <;>
    rcases hb with _ | f1 <;> rcases ht with _ | f2 <;> rcases rb with _ | f3 <;>
    rcases rt with _ | f4 <;> rcases sq with _ | f5 <;>
    simp [zmq_handler_init]

theorem c8_witness :
    (zmq_handler_init none none (some fun _ => Except.ok ())
        (some fun _ => Except.ok ()) none).filters.length = 2 := by
  have h := c8_filters_iff_handler none none (some fun _ => Except.ok ())
    (some fun _ => Except.ok ()) none
    (fun _ => Except.ok ()) (fun _ => Except.ok ())
  rw [h.2.2]
  rfl

/-- C10: a received message whose topic frame is none of the five
recognized topic names is silently ignored: no handler is invoked, no error
is raised, and the loop still re-arms for the next receive. -/
theorem c10_unrecognized_topic_ignored (st : ZMQSub) (topic : String)
    (body : Body) (seq : List (Fin 256)) (h : topic ∉ recognizedTopics) :
    handle st topic body seq
      = { sequenceStr := decodeSequence seq, invokedHandler := false,
          error := none, rearmed := true } := by
  simp only [recognizedTopics, List.mem_cons, List.mem_singleton, not_or] at h
  obtain ⟨h1, h2, h3, h4, h5⟩ := h
  simp [handle, dispatchTopic, h1, h2, h3, h4, h5]

theorem c10_witness :
    handle (zmq_handler_init none none none none none) "foo" [] []
      = { sequenceStr := "Unknown", invokedHandler := false,
          error := none, rearmed := true } := by
  have h := c10_unrecognized_topic_ignored
    (zmq_handler_init none none none none none) "foo" [] [] (by decide)
  exact h

end Btc
